import Mathlib

/-!
Verification of the interval-scheduling core of the `google_calendar_assistant`
repository (`calendar_api.py`: `check_conflicts`, `find_free_slots`;
`ui_app.py`: `schedule_event`).

Timestamps are modelled as `Int` minute counts at minute granularity (the
source works with `datetime` values; every quantity the scheduling logic
compares is a whole number of minutes, and second-level fractions play no
role in any claim).  A caller-supplied timestamp string is modelled as
`Option Int`: `some t` is a string that `datetime.fromisoformat` parses to
minute `t`, `none` is a string the parser rejects (raising `ValueError`,
which the source catches).  The Google Calendar service is an external
collaborator; its `events().list` call is modelled by `gcalList` below,
following the documented semantics of `timeMin`/`timeMax`/`orderBy`.
-/

/-- A calendar event as returned by the provider's `events().list`.
`allDay = true` models an event whose `start` carries a `date` key instead of
a `dateTime` key (an all-day event); `start`/`stop` are the event's start and
end times in minutes (`stop` stands for the Python dict key `end`, a reserved
word in Lean); `summary` is the optional title (`None` when the record has no
`summary` key); `id` is the opaque event identifier. -/
structure GEvent where
  summary : Option String
  allDay : Bool
  start : Int
  stop : Int
  id : String
deriving DecidableEq

/-- One element of the list returned by `check_conflicts`: either a conflict
dict `{title, start, end, id}` built at `calendar_api.py` lines 140-145, or an
`{error: ...}` dict built by the `except` branches at lines 149-152.  The
formatted Python exception text interpolated into the error message is not
modelled; the constructor carries a fixed representative message. -/
inductive CEntry where
  | conflict (title : String) (start stop : Int) (id : String)
  | error (msg : String)
deriving DecidableEq

/-- The conflict dict built from an event at `calendar_api.py` lines 140-145:
`event.get('summary', 'No Title')`, the start/end times, and the id. -/
def toConflict (ev : GEvent) : CEntry :=
  CEntry.conflict (ev.summary.getD "No Title") ev.start ev.stop ev.id

/-- Model of the external Google Calendar `events().list(timeMin, timeMax,
singleEvents=True, orderBy='startTime')` call: it returns the events whose end
lies strictly after `timeMin` and whose start lies strictly before `timeMax`
(the API documents both bounds as exclusive filters on the opposite endpoint),
ordered by start time.  Provider-side rejection of an inverted range is not
modelled. -/
def gcalList (cal : List GEvent) (timeMin timeMax : Int) : List GEvent :=
  List.insertionSort (fun a b => a.start ≤ b.start)
    (cal.filter (fun ev => decide (timeMin < ev.stop) && decide (ev.start < timeMax)))

/-- The conflict-collection loop of `check_conflicts` (`calendar_api.py` lines
135-147): walk the provider-returned events in order, keep every event that
has a `dateTime` start (i.e. skip all-day events), format each as a conflict
dict, and pair the list with the boolean `len(conflicts) > 0`. -/
def conflictScan (events : List GEvent) : Bool × List CEntry :=
  let conflicts := (events.filter (fun ev => !ev.allDay)).map toConflict
  (decide (0 < conflicts.length), conflicts)

/-- `check_conflicts` (`calendar_api.py` lines 103-152): parse the two
candidate timestamps, pad the query range by `bufferMinutes` on each side,
list the events in the padded range, and scan them.  The whole body sits in a
`try`/`except` that turns any exception — here, a timestamp the parser
rejects — into the normal return value `(False, [{'error': ...}])`. -/
def check_conflicts (cal : List GEvent) (startTime endTime : Option Int)
    (bufferMinutes : Int) : Bool × List CEntry :=
  match startTime, endTime with
  | some s, some e => conflictScan (gcalList cal (s - bufferMinutes) (e + bufferMinutes))
  | _, _ => (false, [CEntry.error "Unexpected error"])

/-- A free-slot dict as built at `calendar_api.py` lines 311-315 and 324-328:
start, end (`stop`) and the derived `duration_minutes` field. -/
structure Slot where
  start : Int
  stop : Int
  durationMinutes : Int
deriving DecidableEq

/-- The event loop of `find_free_slots` (`calendar_api.py` lines 303-320):
walk the listed events in the order received, skipping all-day events; before
each timed event emit the slot `[cursor, event.start)` when the gap reaches
`durationMinutes`; then advance the cursor to `max(cursor, event.end)`.
Returns the emitted slots together with the final cursor. -/
def sweepLoop (durationMinutes : Int) (cursor : Int) : List GEvent → List Slot × Int
  | [] => ([], cursor)
  | ev :: evs =>
    if ev.allDay then sweepLoop durationMinutes cursor evs
    else
      let emitted :=
        if durationMinutes ≤ ev.start - cursor then
          [Slot.mk cursor ev.start (ev.start - cursor)]
        else []
      let rest := sweepLoop durationMinutes (max cursor ev.stop) evs
      (emitted ++ rest.1, rest.2)

/-- The slot computation of `find_free_slots` (`calendar_api.py` lines
300-330): run the event loop with the cursor initialised to the window start,
then append the trailing slot `[cursor, endTime)` when the remaining gap to
the window end reaches `durationMinutes`. -/
def freeSlotSweep (startTime endTime durationMinutes : Int)
    (events : List GEvent) : List Slot :=
  let r := sweepLoop durationMinutes startTime events
  r.1 ++ (if durationMinutes ≤ endTime - r.2 then [Slot.mk r.2 endTime (endTime - r.2)] else [])

/-- `find_free_slots` (`calendar_api.py` lines 265-334): parse the date
(`none` models a string `strptime` rejects; the surrounding `try`/`except`
then returns `[]`), build the working window from the whole hours
`workStartHour`/`workEndHour` on that date, list the day's events from the
provider, and sweep them.  `date` is the minute count of the parsed day's
midnight. -/
def find_free_slots (cal : List GEvent) (date : Option Int)
    (durationMinutes workStartHour workEndHour : Int) : List Slot :=
  match date with
  | none => []
  | some d =>
    let startTime := d + 60 * workStartHour
    let endTime := d + 60 * workEndHour
    freeSlotSweep startTime endTime durationMinutes (gcalList cal startTime endTime)

/-- What `schedule_event` (`ui_app.py` lines 295-334) does with the result of
`check_conflicts`: report conflicts, or proceed to create the event. -/
inductive ScheduleAction where
  | reportConflicts
  | createEvent
deriving DecidableEq

/-- The branch of `schedule_event` (`ui_app.py` lines 306-334): it inspects
only the boolean of the `check_conflicts` result; `False` falls through to
`create_event`. -/
def schedule_event (result : Bool × List CEntry) : ScheduleAction :=
  if result.1 then ScheduleAction.reportConflicts else ScheduleAction.createEvent

/-- The events `check_conflicts` reports as conflicts, before formatting them
as dicts: the timed (non-all-day) events among those the provider returns for
the padded range (`calendar_api.py` lines 137-146). -/
def conflictEvents (cal : List GEvent) (s e buf : Int) : List GEvent :=
  (gcalList cal (s - buf) (e + buf)).filter (fun ev => !ev.allDay)

/-- The spec's ordering for the Free-Slot Finder (§4.2): start time ascending,
tie-break by end time ascending.  Comparison definition only; the source
performs no local sort. -/
def lexStartStop (a b : GEvent) : Prop :=
  a.start < b.start ∨ (a.start = b.start ∧ a.stop ≤ b.stop)

instance : DecidableRel lexStartStop := fun a b => by
  unfold lexStartStop; infer_instance

/-- The Free-Slot Finder as the spec words it (§4.2): drop all-day entries,
sort the rest by start time ascending with ties broken by end time ascending,
then run the cursor sweep.  Comparison definition for the refinement claim;
the source sweep processes events in the order the provider returned them. -/
def specFreeSlots (startTime endTime durationMinutes : Int)
    (busy : List GEvent) : List Slot :=
  freeSlotSweep startTime endTime durationMinutes
    (List.insertionSort lexStartStop (busy.filter (fun ev => !ev.allDay)))

/-! ### Helper lemmas -/

theorem check_conflicts_some (cal : List GEvent) (s e buf : Int) :
    check_conflicts cal (some s) (some e) buf =
      conflictScan (gcalList cal (s - buf) (e + buf)) := rfl

theorem check_conflicts_some_snd (cal : List GEvent) (s e buf : Int) :
    (check_conflicts cal (some s) (some e) buf).2 =
      (conflictEvents cal s e buf).map toConflict := rfl

theorem mem_conflictEvents {cal : List GEvent} {s e buf : Int} {b : GEvent} :
    b ∈ conflictEvents cal s e buf ↔
      b ∈ cal ∧ b.allDay = false ∧ b.start < e + buf ∧ s - buf < b.stop := by
  simp only [conflictEvents, gcalList, List.mem_filter, List.mem_insertionSort,
    Bool.and_eq_true, decide_eq_true_eq, Bool.not_eq_true']
  tauto

theorem sweepLoop_filter_allDay (d : Int) :
    ∀ (evs : List GEvent) (c : Int),
      sweepLoop d c (evs.filter (fun ev => !ev.allDay)) = sweepLoop d c evs
  | [], _ => rfl
  | ev :: evs, c => by
    by_cases h : ev.allDay
    · simp [sweepLoop, h, List.filter_cons, sweepLoop_filter_allDay d evs c]
    · simp [sweepLoop, h, List.filter_cons,
        sweepLoop_filter_allDay d evs (max c ev.stop)]

theorem sweepLoop_cursor_le (d : Int) :
    ∀ (evs : List GEvent) (c : Int), c ≤ (sweepLoop d c evs).2
  | [], _ => le_refl _
  | ev :: evs, c => by
    by_cases h : ev.allDay
    · simpa [sweepLoop, h] using sweepLoop_cursor_le d evs c
    · have h1 : c ≤ max c ev.stop := le_max_left _ _
      have h2 := sweepLoop_cursor_le d evs (max c ev.stop)
      simp only [sweepLoop, h, if_false, Bool.false_eq_true]
      exact le_trans h1 h2

theorem sweepLoop_invariant (d : Int) :
    ∀ (evs : List GEvent) (c : Int),
      (∀ ev ∈ evs, ev.allDay = false → ev.start < ev.stop) →
      (∀ s ∈ (sweepLoop d c evs).1,
          c ≤ s.start ∧ s.durationMinutes = s.stop - s.start ∧
          d ≤ s.stop - s.start ∧ s.stop ≤ (sweepLoop d c evs).2) ∧
      List.Pairwise (fun a b : Slot => a.stop ≤ b.start) (sweepLoop d c evs).1 := by
  intro evs
  induction evs with
  | nil =>
    intro c _
    constructor
    · intro s hs; simp [sweepLoop] at hs
    · simp [sweepLoop]
  | cons ev evs ih =>
    intro c h
    have hevs : ∀ e ∈ evs, e.allDay = false → e.start < e.stop :=
      fun e he => h e (List.mem_cons_of_mem _ he)
    by_cases hall : ev.allDay
    · simpa [sweepLoop, hall] using ih c hevs
    · have hfalse : ev.allDay = false := by simpa using hall
      have hwf : ev.start < ev.stop := h ev (List.mem_cons_self _ _) hfalse
      have IH := ih (max c ev.stop) hevs
      have hcur := sweepLoop_cursor_le d evs (max c ev.stop)
      have hstop : ev.stop ≤ (sweepLoop d (max c ev.stop) evs).2 :=
        le_trans (le_max_right _ _) hcur
      by_cases hemit : d ≤ ev.start - c
      · have hunf : sweepLoop d c (ev :: evs) =
            (Slot.mk c ev.start (ev.start - c) :: (sweepLoop d (max c ev.stop) evs).1,
             (sweepLoop d (max c ev.stop) evs).2) := by
          simp [sweepLoop, hall, hemit]
        rw [hunf]
        constructor
        · intro s hs
          rcases List.mem_cons.mp hs with hs | hs
          · subst hs
            exact ⟨le_refl _, rfl, hemit, le_trans hwf.le hstop⟩
          · obtain ⟨hc, hdur, hlen, hst⟩ := IH.1 s hs
            exact ⟨le_trans (le_max_left _ _) hc, hdur, hlen, hst⟩
        · refine List.pairwise_cons.mpr ⟨?_, IH.2⟩
          intro s hs
          exact le_trans (le_trans hwf.le (le_max_right c ev.stop)) (IH.1 s hs).1
      · have hunf : sweepLoop d c (ev :: evs) = sweepLoop d (max c ev.stop) evs := by
          simp [sweepLoop, hall, hemit]
        rw [hunf]
        constructor
        · intro s hs
          obtain ⟨hc, hdur, hlen, hst⟩ := IH.1 s hs
          exact ⟨le_trans (le_max_left _ _) hc, hdur, hlen, hst⟩
        · exact IH.2

theorem sweepLoop_stop_from_event (d : Int) :
    ∀ (evs : List GEvent) (c : Int), ∀ s ∈ (sweepLoop d c evs).1,
      ∃ ev, ev ∈ evs ∧ ev.allDay = false ∧ s.stop = ev.start := by
  intro evs
  induction evs with
  | nil => intro c s hs; simp [sweepLoop] at hs
  | cons ev evs ih =>
    intro c s hs
    by_cases hall : ev.allDay
    · rw [show sweepLoop d c (ev :: evs) = sweepLoop d c evs by simp [sweepLoop, hall]] at hs
      obtain ⟨e, he, h1, h2⟩ := ih c s hs
      exact ⟨e, List.mem_cons_of_mem _ he, h1, h2⟩
    · have hfalse : ev.allDay = false := by simpa using hall
      by_cases hemit : d ≤ ev.start - c
      · rw [show sweepLoop d c (ev :: evs) =
            (Slot.mk c ev.start (ev.start - c) :: (sweepLoop d (max c ev.stop) evs).1,
             (sweepLoop d (max c ev.stop) evs).2) by simp [sweepLoop, hall, hemit]] at hs
        rcases List.mem_cons.mp hs with hs | hs
        · exact ⟨ev, List.mem_cons_self _ _, hfalse, by rw [hs]⟩
        · obtain ⟨e, he, h1, h2⟩ := ih (max c ev.stop) s hs
          exact ⟨e, List.mem_cons_of_mem _ he, h1, h2⟩
      · rw [show sweepLoop d c (ev :: evs) = sweepLoop d (max c ev.stop) evs by
            simp [sweepLoop, hall, hemit]] at hs
        obtain ⟨e, he, h1, h2⟩ := ih (max c ev.stop) s hs
        exact ⟨e, List.mem_cons_of_mem _ he, h1, h2⟩

/-! ### Claim theorems -/

/-- Claim C1, counterexample: the event loop of `find_free_slots` is not
permutation-invariant.  On the busy list [11:00-12:00, 09:00-10:00] (a
permutation of its sorted version [09:00-10:00, 11:00-12:00]) the output
differs from the output on the sorted list: the source performs no local
sort before the cursor sweep. -/
theorem find_free_slots_order_counterexample :
    freeSlotSweep 540 1080 30
        [GEvent.mk (some "B") false 660 720 "b", GEvent.mk (some "A") false 540 600 "a"] =
      [Slot.mk 540 660 120, Slot.mk 720 1080 360] ∧
    freeSlotSweep 540 1080 30
        [GEvent.mk (some "A") false 540 600 "a", GEvent.mk (some "B") false 660 720 "b"] =
      [Slot.mk 600 660 60, Slot.mk 720 1080 360] ∧
    freeSlotSweep 540 1080 30
        [GEvent.mk (some "B") false 660 720 "b", GEvent.mk (some "A") false 540 600 "a"] ≠
      freeSlotSweep 540 1080 30
        [GEvent.mk (some "A") false 540 600 "a", GEvent.mk (some "B") false 660 720 "b"] := by
  refine ⟨rfl, rfl, ?_⟩
  decide

/-- Claim C1, amended: `find_free_slots` excludes all-day entries before the
sweep, and on a busy list whose timed entries are already sorted by start
time ascending (ties by end time ascending) its output equals that of the
spec's sort-then-sweep algorithm; it performs no local sort of its own, so
the agreement does not extend to arbitrary permutations. -/
theorem find_free_slots_sorted_agreement (ws we d : Int) (evs : List GEvent) :
    freeSlotSweep ws we d evs =
      freeSlotSweep ws we d (evs.filter (fun ev => !ev.allDay)) ∧
    (List.Sorted lexStartStop (evs.filter (fun ev => !ev.allDay)) →
      freeSlotSweep ws we d evs = specFreeSlots ws we d evs) := by
  have hfil : freeSlotSweep ws we d (evs.filter (fun ev => !ev.allDay)) =
      freeSlotSweep ws we d evs := by
    unfold freeSlotSweep
    rw [sweepLoop_filter_allDay]
  refine ⟨hfil.symm, ?_⟩
  intro hsorted
  unfold specFreeSlots
  rw [List.Sorted.insertionSort_eq hsorted]
  exact hfil.symm

theorem find_free_slots_sorted_agreement_witness :
    freeSlotSweep 540 1080 30
        [GEvent.mk (some "A") false 540 600 "a", GEvent.mk (some "B") false 660 720 "b"] =
      specFreeSlots 540 1080 30
        [GEvent.mk (some "A") false 540 600 "a", GEvent.mk (some "B") false 660 720 "b"] :=
  (find_free_slots_sorted_agreement 540 1080 30
    [GEvent.mk (some "A") false 540 600 "a", GEvent.mk (some "B") false 660 720 "b"]).2
    (by decide)

/-- Claim C2, counterexample: a candidate whose start timestamp fails to parse
does not surface any error to the caller: `check_conflicts` catches the
exception and returns the normal value `(False, [{'error': ...}])`, and
`find_free_slots` on an unparseable date catches and returns `[]`. -/
theorem malformed_input_swallowed_counterexample :
    check_conflicts [] none (some 900) 15 = (false, [CEntry.error "Unexpected error"]) ∧
    find_free_slots [] none 30 9 18 = [] :=
  ⟨rfl, rfl⟩

/-- Claim C2, amended: on any candidate with an unparseable timestamp,
`check_conflicts` catches the exception internally and returns
`(False, [{'error': ...}])`, and `find_free_slots` on an unparseable date
catches and returns `[]`; no `MalformedInterval` error reaches the caller,
and `start >= end` is never checked at all. -/
theorem malformed_input_swallowed (cal : List GEvent) (st et : Option Int)
    (buf d a b : Int) (h : st = none ∨ et = none) :
    check_conflicts cal st et buf = (false, [CEntry.error "Unexpected error"]) ∧
    find_free_slots cal none d a b = [] := by
  refine ⟨?_, rfl⟩
  rcases h with h | h
  · subst h; cases et <;> rfl
  · subst h; cases st <;> rfl

theorem malformed_input_swallowed_witness :
    check_conflicts [GEvent.mk none false 0 60 "x"] (some 100) none 0 =
      (false, [CEntry.error "Unexpected error"]) ∧
    find_free_slots [GEvent.mk none false 0 60 "x"] none 15 9 18 = [] :=
  malformed_input_swallowed [GEvent.mk none false 0 60 "x"] (some 100) none 0 15 9 18
    (Or.inr rfl)

/-- Claim C3 (confirmed): with parseable candidate timestamps and `s < e`, the
events `check_conflicts` reports as conflicts are exactly the non-all-day
calendar events `b` with `b.start < candidate.end + buffer` and
`b.end > candidate.start - buffer` (the query range the provider is given is
the padded candidate, both bounds exclusive); in particular, when every
calendar event misses the padded candidate the result is `(False, [])`, and
all-day entries never appear among the conflicts. -/
theorem conflict_classification (cal : List GEvent) (s e buf : Int) (hse : s < e) :
    (∀ b, b ∈ conflictEvents cal s e buf ↔
        b ∈ cal ∧ b.allDay = false ∧ b.start < e + buf ∧ s - buf < b.stop) ∧
    (check_conflicts cal (some s) (some e) buf).2 =
      (conflictEvents cal s e buf).map toConflict ∧
    ((∀ ev ∈ cal, ¬(ev.start < e + buf ∧ s - buf < ev.stop)) →
      check_conflicts cal (some s) (some e) buf = (false, [])) := by
  refine ⟨fun b => mem_conflictEvents, rfl, ?_⟩
  intro hdisj
  have hnil : conflictEvents cal s e buf = [] := by
    rw [List.eq_nil_iff_forall_not_mem]
    intro b hb
    obtain ⟨hmem, _, h1, h2⟩ := mem_conflictEvents.mp hb
    exact hdisj b hmem ⟨h1, h2⟩
  have hfil : (gcalList cal (s - buf) (e + buf)).filter (fun ev => !ev.allDay) = [] := hnil
  rw [check_conflicts_some]
  simp [conflictScan, hfil]

theorem conflict_classification_witness :
    check_conflicts [GEvent.mk (some "Busy") false 910 960 "w3"] (some 840) (some 900) 5 =
      (false, []) :=
  (conflict_classification [GEvent.mk (some "Busy") false 910 960 "w3"] 840 900 5
    (by decide)).2.2 (by decide)

/-- Claim C4 (confirmed): for every window, every busy list whose timed
entries satisfy the data-model invariant `start < end`, and every positive
minimum duration, the slots returned by the `find_free_slots` sweep each have
`duration >= min_duration` (and the stored `duration_minutes` field equals
`end - start`), are pairwise non-overlapping and in chronological order; and
with zero timed busy intervals the result is the single slot spanning the
whole window whenever the window is at least `min_duration` long (so in
particular the empty sequence is a possible result). -/
theorem free_slots_invariants (ws we d : Int) (evs : List GEvent)
    (hd : 0 < d)
    (hwf : ∀ ev ∈ evs, ev.allDay = false → ev.start < ev.stop) :
    (∀ s ∈ freeSlotSweep ws we d evs,
        d ≤ s.stop - s.start ∧ s.durationMinutes = s.stop - s.start) ∧
    List.Pairwise (fun a b : Slot => a.stop ≤ b.start) (freeSlotSweep ws we d evs) ∧
    (evs.filter (fun ev => !ev.allDay) = [] → d ≤ we - ws →
      freeSlotSweep ws we d evs = [Slot.mk ws we (we - ws)]) := by
  obtain ⟨h1, h2⟩ := sweepLoop_invariant d evs ws hwf
  have hunf : freeSlotSweep ws we d evs =
      (sweepLoop d ws evs).1 ++
        (if d ≤ we - (sweepLoop d ws evs).2 then
          [Slot.mk (sweepLoop d ws evs).2 we (we - (sweepLoop d ws evs).2)] else []) := rfl
  refine ⟨?_, ?_, ?_⟩
  · intro s hs
    rw [hunf] at hs
    rcases List.mem_append.mp hs with hs | hs
    · exact ⟨(h1 s hs).2.2.1, (h1 s hs).2.1⟩
    · by_cases ht : d ≤ we - (sweepLoop d ws evs).2
      · rw [if_pos ht] at hs
        simp only [List.mem_singleton] at hs
        subst hs
        exact ⟨ht, rfl⟩
      · rw [if_neg ht] at hs
        simp at hs
  · rw [hunf]
    refine List.pairwise_append.mpr ⟨h2, ?_, ?_⟩
    · split
      · exact List.pairwise_singleton _ _
      · exact List.Pairwise.nil
    · intro a ha b hb
      by_cases ht : d ≤ we - (sweepLoop d ws evs).2
      · rw [if_pos ht] at hb
        simp only [List.mem_singleton] at hb
        subst hb
        exact (h1 a ha).2.2.2
      · rw [if_neg ht] at hb
        simp at hb
  · intro hfil hlen
    have hnil : sweepLoop d ws evs = ([], ws) := by
      rw [← sweepLoop_filter_allDay d evs ws, hfil]
      rfl
    rw [hunf, hnil]
    simp [hlen]

theorem free_slots_invariants_witness :
    freeSlotSweep 540 1080 30 [] = [Slot.mk 540 1080 540] :=
  (free_slots_invariants 540 1080 30 [] (by decide) (by simp)).2.2 rfl (by decide)

/-- Claim C5 (confirmed): the conflict loop of `check_conflicts` reports every
timed event of the list it is given — not just the first — formatted in the
order received (its output is a sublist of the formatted input list), and the
boolean it returns is true exactly when that list is non-empty; consequently,
whenever at least one timed calendar event overlaps the padded candidate,
`check_conflicts` returns `True`. -/
theorem all_conflicts_reported (events cal : List GEvent) (s e buf : Int) :
    (∀ ev ∈ events, ev.allDay = false → toConflict ev ∈ (conflictScan events).2) ∧
    List.Sublist (conflictScan events).2 (events.map toConflict) ∧
    ((conflictScan events).1 = true ↔ (conflictScan events).2 ≠ []) ∧
    ((∃ b ∈ cal, b.allDay = false ∧ b.start < e + buf ∧ s - buf < b.stop) →
      (check_conflicts cal (some s) (some e) buf).1 = true) := by
  refine ⟨?_, ?_, ?_, ?_⟩
  · intro ev hmem hfalse
    show toConflict ev ∈ (events.filter (fun ev => !ev.allDay)).map toConflict
    exact List.mem_map_of_mem _ (List.mem_filter.mpr ⟨hmem, by simp [hfalse]⟩)
  · show List.Sublist ((events.filter (fun ev => !ev.allDay)).map toConflict)
      (events.map toConflict)
    exact (List.filter_sublist events).map _
  · show decide (0 < ((events.filter (fun ev => !ev.allDay)).map toConflict).length) = true ↔
      (events.filter (fun ev => !ev.allDay)).map toConflict ≠ []
    simp [List.length_pos]
  · rintro ⟨b, hb, hfalse, h1, h2⟩
    have hmem : b ∈ conflictEvents cal s e buf :=
      mem_conflictEvents.mpr ⟨hb, hfalse, h1, h2⟩
    have hlen : 0 < ((gcalList cal (s - buf) (e + buf)).filter (fun ev => !ev.allDay)).length :=
      List.length_pos.mpr (List.ne_nil_of_mem hmem)
    rw [check_conflicts_some]
    show decide
      (0 < (((gcalList cal (s - buf) (e + buf)).filter (fun ev => !ev.allDay)).map
        toConflict).length) = true
    simpa using hlen

theorem all_conflicts_reported_witness :
    (check_conflicts [GEvent.mk (some "Busy") false 910 960 "w5"] (some 840) (some 900) 15).1 =
      true :=
  (all_conflicts_reported [] [GEvent.mk (some "Busy") false 910 960 "w5"] 840 900 15).2.2.2
    ⟨GEvent.mk (some "Busy") false 910 960 "w5", by decide, by decide, by decide, by decide⟩

/-- Claim C6, counterexample: a negative buffer is not rejected —
`check_conflicts` proceeds and returns a normal conflict result computed from
the (narrowed) padded range — and a non-positive minimum duration is not
rejected — `find_free_slots` proceeds and still returns slots.  No
`InvalidDuration` error exists anywhere in the code. -/
theorem no_duration_validation_counterexample :
    check_conflicts [GEvent.mk (some "M") false 850 860 "m"] (some 840) (some 900) (-5) =
      (true, [CEntry.conflict "M" 850 860 "m"]) ∧
    find_free_slots [] (some 0) 0 9 18 = [Slot.mk 540 1080 540] :=
  ⟨rfl, rfl⟩

/-- Claim C6, amended: neither function validates its duration inputs.  For
every buffer — negative included — `check_conflicts` queries the provider over
the padded range `[start - buffer, end + buffer]` and classifies events by the
same overlap test against it; for every non-positive minimum duration the
sweep still runs, returning the full-window slot on a busy-free window. -/
theorem no_duration_validation (cal : List GEvent) (s e buf d ws we : Int)
    (hbuf : buf < 0) (hd : d ≤ 0) :
    (∀ b, b ∈ conflictEvents cal s e buf ↔
        b ∈ cal ∧ b.allDay = false ∧ b.start < e + buf ∧ s - buf < b.stop) ∧
    (check_conflicts cal (some s) (some e) buf).2 =
      (conflictEvents cal s e buf).map toConflict ∧
    (ws ≤ we → freeSlotSweep ws we d [] = [Slot.mk ws we (we - ws)]) := by
  refine ⟨fun b => mem_conflictEvents, rfl, ?_⟩
  intro hw
  have hle : d ≤ we - ws := le_trans hd (by omega)
  show ([] : List Slot) ++
      (if d ≤ we - ws then [Slot.mk ws we (we - ws)] else []) = [Slot.mk ws we (we - ws)]
  simp [hle]

theorem no_duration_validation_witness :
    freeSlotSweep 540 1080 0 [] = [Slot.mk 540 1080 540] :=
  (no_duration_validation [] 840 900 (-5) 0 540 1080 (by decide) (by decide)).2.2 (by decide)

/-- Claim C7 (confirmed): for candidate 14:00-15:00 (minutes 840-900) and busy
list [15:10-16:00] (minutes 910-960), `check_conflicts` reports a conflict
with a 15-minute buffer (the padded candidate ends 15:15 = 915, past the busy
start 910) and no conflict with a 5-minute buffer (the padded candidate ends
15:05 = 905, before the busy start). -/
theorem check_conflicts_buffer_scenarios :
    check_conflicts [GEvent.mk (some "Busy") false 910 960 "ev1"] (some 840) (some 900) 15 =
      (true, [CEntry.conflict "Busy" 910 960 "ev1"]) ∧
    check_conflicts [GEvent.mk (some "Busy") false 910 960 "ev1"] (some 840) (some 900) 5 =
      (false, []) :=
  ⟨rfl, rfl⟩

/-- Claim C8 (confirmed): for the 09:00-18:00 window (minutes 540-1080), a
single busy interval 08:00-19:00 (minutes 480-1140) spanning the whole
window, and a 15-minute minimum, `find_free_slots` returns no slots: the gap
check before the event fails, `max(cursor, event.end)` advances the cursor to
1140, and the trailing check against the window end finds no room.  More
generally, the `max` rule means the cursor of the sweep never moves backward
over any event list. -/
theorem spanning_busy_no_slots :
    find_free_slots [GEvent.mk (some "Long") false 480 1140 "e1"] (some 0) 15 9 18 = [] ∧
    ∀ (d : Int) (evs : List GEvent) (c : Int), c ≤ (sweepLoop d c evs).2 :=
  ⟨rfl, fun d evs c => sweepLoop_cursor_le d evs c⟩

/-- Claim C9 (confirmed): when the internal exception path of
`check_conflicts` triggers (an unparseable timestamp), it returns
`has_conflicts = False` paired with a one-element list holding an error entry
rather than a busy interval, and `schedule_event`, which branches only on the
boolean, treats this as "no conflict" and proceeds to create the event. -/
theorem error_treated_as_no_conflict (cal : List GEvent) (st et : Option Int)
    (buf : Int) (h : st = none ∨ et = none) :
    (check_conflicts cal st et buf).1 = false ∧
    (check_conflicts cal st et buf).2 = [CEntry.error "Unexpected error"] ∧
    schedule_event (check_conflicts cal st et buf) = ScheduleAction.createEvent := by
  have heq : check_conflicts cal st et buf = (false, [CEntry.error "Unexpected error"]) := by
    rcases h with h | h
    · subst h; cases et <;> rfl
    · subst h; cases st <;> rfl
  rw [heq]
  exact ⟨rfl, rfl, rfl⟩

theorem error_treated_as_no_conflict_witness :
    schedule_event (check_conflicts [] none none 7) = ScheduleAction.createEvent :=
  (error_treated_as_no_conflict [] none none 7 (Or.inl rfl)).2.2

theorem mem_gcalList {cal : List GEvent} {tmin tmax : Int} {b : GEvent} :
    b ∈ gcalList cal tmin tmax ↔ b ∈ cal ∧ tmin < b.stop ∧ b.start < tmax := by
  simp only [gcalList, List.mem_insertionSort, List.mem_filter, Bool.and_eq_true,
    decide_eq_true_eq]

theorem freeSlotSweep_stop_le (ws we d : Int) (evs : List GEvent)
    (h : ∀ ev ∈ evs, ev.allDay = false → ev.start ≤ we) :
    ∀ s ∈ freeSlotSweep ws we d evs, s.stop ≤ we := by
  intro s hs
  have hunf : freeSlotSweep ws we d evs =
      (sweepLoop d ws evs).1 ++
        (if d ≤ we - (sweepLoop d ws evs).2 then
          [Slot.mk (sweepLoop d ws evs).2 we (we - (sweepLoop d ws evs).2)] else []) := rfl
  rw [hunf] at hs
  rcases List.mem_append.mp hs with hs | hs
  · obtain ⟨ev, hmem, hfalse, hstop⟩ := sweepLoop_stop_from_event d evs ws s hs
    rw [hstop]
    exact h ev hmem hfalse
  · by_cases ht : d ≤ we - (sweepLoop d ws evs).2
    · rw [if_pos ht] at hs
      simp only [List.mem_singleton] at hs
      subst hs
      exact le_refl _
    · rw [if_neg ht] at hs
      simp at hs

/-- Claim C10, counterexample: a busy interval starting after the window end
never reaches the sweep, so `find_free_slots` does not emit a slot ending past
the window end.  With window 09:00-18:00 (540-1080) and a calendar holding
only a 19:00-20:00 event (1140-1200), the provider query -- whose `timeMax` is
an exclusive upper bound on event starts -- returns no events, and
`find_free_slots` returns the single full-window slot ending at 1080, not a
slot ending at 1140. -/
theorem slot_end_unclipped_counterexample :
    find_free_slots [GEvent.mk (some "Late") false 1140 1200 "e9"] (some 0) 30 9 18 =
      [Slot.mk 540 1080 540] ∧
    gcalList [GEvent.mk (some "Late") false 1140 1200 "e9"] 540 1080 = [] :=
  ⟨rfl, rfl⟩

/-- Claim C10, amended: the sweep itself performs no clipping -- every slot
emitted by the event loop takes its end directly from some timed busy
interval's start, and only the trailing slot ends at the window end -- but
`find_free_slots` never returns a slot ending past the window end: the
provider query is bounded by `timeMax = window.end`, an exclusive bound on
event starts, so every event reaching the sweep starts before the window end
and every returned slot has `end <= window.end`. -/
theorem find_free_slots_within_window (cal : List GEvent) (dt d a b : Int) :
    (∀ s ∈ find_free_slots cal (some dt) d a b, s.stop ≤ dt + 60 * b) ∧
    (∀ (dm c : Int) (evs : List GEvent), ∀ s ∈ (sweepLoop dm c evs).1,
      s.stop ∈ (evs.filter (fun ev => !ev.allDay)).map GEvent.start) := by
  refine ⟨?_, ?_⟩
  · intro s hs
    have hb : ∀ ev ∈ gcalList cal (dt + 60 * a) (dt + 60 * b), ev.allDay = false →
        ev.start ≤ dt + 60 * b :=
      fun ev hmem _ => le_of_lt (mem_gcalList.mp hmem).2.2
    exact freeSlotSweep_stop_le (dt + 60 * a) (dt + 60 * b) d
      (gcalList cal (dt + 60 * a) (dt + 60 * b)) hb s hs
  · intro dm c evs s hs
    obtain ⟨ev, hmem, hfalse, hstop⟩ := sweepLoop_stop_from_event dm evs c s hs
    rw [hstop]
    exact List.mem_map_of_mem _ (List.mem_filter.mpr ⟨hmem, by simp [hfalse]⟩)

theorem find_free_slots_within_window_witness :
    (Slot.mk 540 1080 540).stop ≤ (0 : Int) + 60 * 18 :=
  (find_free_slots_within_window [GEvent.mk (some "Late") false 1140 1200 "e9"] 0 30 9 18).1
    (Slot.mk 540 1080 540) (by decide)
